import Mathlib

/-!
# Verification of the RAG ingestion-and-retrieval pipeline

A shallow embedding, in Lean 4, of the core of the `rag-chatbot` backend
(`backend/embedding_service.py`, `backend/search_service.py`, and the
`/chat` endpoint of `backend/main.py`), together with theorems settling
the frozen specification claims.

External collaborators (OpenAI embedding/generation, Pinecone, GCP blob
storage, text extraction, the langchain text splitter) are modelled as
oracle functions carried in environment records; the repository's own
control flow (per-chunk skip logic, context budgeting, citation
deduplication, status transitions, failure boundaries) is translated
directly from the Python source.
-/

/-! ## Decimal rendering of chunk indices

`store_embeddings_in_pinecone` derives vector ids via the f-string
`f"{doc_id}_chunk_{i}"`; `i` is rendered in decimal. We define the decimal
rendering explicitly so that injectivity can be proved. -/

/-- Decimal digit list of a natural number (most significant first),
as produced by Python's `f"{i}"`. Reference definition used to reason
about `Nat.toDigits`. -/
def natDigits (n : Nat) : List Char :=
  if h : n < 10 then [Nat.digitChar n]
  else natDigits (n / 10) ++ [Nat.digitChar (n % 10)]
  decreasing_by exact Nat.div_lt_self (by omega) (by omega)

/-- The id under which chunk `i` of document `doc_id` is upserted:
`f"{doc_id}_chunk_{i}"` (`i` rendered in decimal). -/
def vecId (doc_id : String) (i : Nat) : String :=
  doc_id ++ "_chunk_" ++ toString i

/-- Numeric value of a decimal digit character. -/
def digitVal (c : Char) : Nat := c.toNat - 48

/-- Decoder for decimal digit lists, used to prove `natDigits` injective. -/
def unDigits (l : List Char) : Nat :=
  l.foldl (fun acc c => acc * 10 + digitVal c) 0

/-- Python's `str.strip()`: drop leading and trailing whitespace. -/
def pyStrip (s : String) : String :=
  String.mk (((s.data.dropWhile Char.isWhitespace).reverse.dropWhile
    Char.isWhitespace).reverse)

/-! ## The vector index (Pinecone) model

The index is a per-(namespace, id) store of vectors with metadata;
`upsert` inserts or overwrites the entry with the given key. We model the
store as an insertion-ordered association list keyed by (namespace, id). -/

/-- A stored vector: embedding values plus the metadata attached by
`store_embeddings_in_pinecone` (lines 124-135 of `embedding_service.py`). -/
structure StoredVector where
  values : List ℚ
  user_id : String
  doc_id : String
  doc_name : String
  chunk_id : Nat
  text : String
  chunk_length : Nat
deriving DecidableEq

/-- State of the vector index: entries keyed by (namespace, vector id). -/
abbrev IndexState := List ((String × String) × StoredVector)

/-- Upsert a single vector: overwrite the entry with the same key if
present, otherwise append. -/
def upsertOne : IndexState → (String × String) → StoredVector → IndexState
  | [], k, v => [(k, v)]
  | e :: rest, k, v => if e.1 = k then (k, v) :: rest else e :: upsertOne rest k v

/-- Upsert a list of (id, vector) pairs into one namespace, in order. -/
def upsertAll (st : IndexState) (ns : String) (vs : List (String × StoredVector)) :
    IndexState :=
  vs.foldl (fun s kv => upsertOne s (ns, kv.1) kv.2) st

/-- Upsert in batches of `batch_size = 100`, as in lines 150-153 of
`embedding_service.py`. -/
def upsertBatches : IndexState → String → List (String × StoredVector) → IndexState
  | st, _, [] => st
  | st, ns, v :: rest =>
    upsertBatches (upsertAll st ns ((v :: rest).take 100)) ns ((v :: rest).drop 100)
  termination_by st ns vs => vs.length
  decreasing_by simp [List.length_drop]; omega

/-- Look up the vector stored under (namespace, id), if any. -/
def lookupVec (st : IndexState) (ns id : String) : Option StoredVector :=
  (st.find? (fun e => e.1 = (ns, id))).map (·.2)

/-- Number of vectors living in a namespace. -/
def countNs (st : IndexState) (ns : String) : Nat :=
  (st.filter (fun e => e.1.1 = ns)).length

/-- The chunk ids (sequence indices) of the vectors stored for a document
in a namespace, in storage order. -/
def storedChunkIds (st : IndexState) (ns doc_id : String) : List Nat :=
  ((st.filter (fun e => e.1.1 = ns ∧ e.2.doc_id = doc_id)).map (fun e => e.2.chunk_id))

/-! ## `store_embeddings_in_pinecone` (embedding_service.py lines 98-159)

The per-chunk loop embeds each chunk; a chunk whose embedding raises is
skipped (`continue`); if no vectors were generated the function raises;
otherwise the vectors are upserted in batches of 100 into the tenant's
namespace. The embedding provider is an oracle `String → Except String
(List ℚ)`; upsert-time index failure is modelled by the `upsertOk` flag. -/

/-- The vector built for chunk `c` at index `i`: id `f"{doc_id}_chunk_{i}"`,
metadata with `text` truncated to the first 1000 characters. -/
def mkVector (uid doc_id filename : String) (i : Nat) (c : String) (emb : List ℚ) :
    String × StoredVector :=
  (vecId doc_id i, ⟨emb, uid, doc_id, filename, i, c.take 1000, c.length⟩)

/-- The `for i, chunk in enumerate(chunks)` loop of lines 118-140: collect
the vectors of the chunks whose embedding succeeds, keeping the original
enumeration index; failed chunks are skipped. -/
def buildVectorsFrom (embed : String → Except String (List ℚ))
    (uid doc_id filename : String) : Nat → List String → List (String × StoredVector)
  | _, [] => []
  | i, c :: cs =>
    match embed c with
    | .error _ => buildVectorsFrom embed uid doc_id filename (i + 1) cs
    | .ok emb => mkVector uid doc_id filename i c emb
        :: buildVectorsFrom embed uid doc_id filename (i + 1) cs

/-- `store_embeddings_in_pinecone`: raises if the index is uninitialized;
skips chunks whose embedding fails; raises "No vectors generated from
chunks" if every chunk failed; otherwise upserts into namespace
`f"user_{user_id}"` in batches of 100 (re-raising upsert failures). -/
def store_embeddings_in_pinecone (embed : String → Except String (List ℚ))
    (chunks : List String) (user_id doc_id filename : String)
    (indexReady upsertOk : Bool) (st : IndexState) : Except String IndexState :=
  if !indexReady then .error "Pinecone index not initialized"
  else
    let vectors := buildVectorsFrom embed user_id doc_id filename 0 chunks
    if vectors.isEmpty then .error "No vectors generated from chunks"
    else if upsertOk then .ok (upsertBatches st ("user_" ++ user_id) vectors)
    else .error "Error storing vectors in Pinecone"

/-! ## `process_document_embeddings` (embedding_service.py lines 161-221) -/

/-- Document embedding status, as written to the status store
(`update_embedding_status`). `pending` is set at upload time. -/
inductive DocStatus where
  | pending
  | processing
  | completed
  | failed
deriving DecidableEq

/-- Oracles for the external collaborators of the ingestion pipeline. -/
structure IngestEnv where
  /-- `download_from_gcp`: blob content per path. -/
  download : String → Except String String
  /-- `extract_text_from_file (content, filename)`. -/
  extractText : String → String → Except String String
  /-- the langchain `RecursiveCharacterTextSplitter` (total, external). -/
  chunker : String → List String
  /-- `generate_embedding`. -/
  embed : String → Except String (List ℚ)
  /-- whether `pinecone_index` is initialized (non-`None`). -/
  indexReady : Bool
  /-- whether the Pinecone upsert calls succeed. -/
  upsertOk : Bool

/-- The fallible body of the `try` block of `process_document_embeddings`
(after the `processing` status write): download, extract, reject
empty/whitespace text, chunk, reject zero chunks, then store embeddings —
unless `pinecone_index` is `None`, in which case storage is skipped
entirely (lines 207-211). -/
def ingestSteps (env : IngestEnv) (user_id doc_id gcp_path filename : String)
    (st : IndexState) : Except String IndexState := do
  let content ← env.download gcp_path
  let text ← env.extractText content filename
  if pyStrip text = "" then throw "No text extracted from file"
  else
    let chunks := env.chunker text
    if chunks.isEmpty then throw "No chunks created from text"
    else if env.indexReady then
      store_embeddings_in_pinecone env.embed chunks user_id doc_id filename
        env.indexReady env.upsertOk st
    else pure st

/-- `process_document_embeddings`: writes status `processing`, runs the
pipeline, then writes `completed` on success; on any exception writes
`failed` and re-raises. Returns (outcome, status writes in order, index
state). Status writes themselves are best-effort (`update_embedding_status`
swallows its own errors), so they always appear in the trace. -/
def process_document_embeddings (env : IngestEnv)
    (user_id doc_id gcp_path filename : String) (st : IndexState) :
    Except String Unit × List DocStatus × IndexState :=
  match ingestSteps env user_id doc_id gcp_path filename st with
  | .ok st' => (.ok (), [.processing, .completed], st')
  | .error e => (.error e, [.processing, .failed], st)

/-! ## Retrieval pipeline (search_service.py)

Scores are modelled as exact rationals. Python's `round(score, 3)` is
modelled as rounding to the nearest multiple of 1/1000; Python's `sorted`
(a stable sort) is modelled by `List.insertionSort`, which is stable and
therefore extensionally equal to it for the total preorder used here. -/

/-- One formatted match from `search_similar_documents` (lines 46-56):
score plus the metadata fields the pipeline reads. -/
structure SearchResult where
  id : String
  score : ℚ
  text : String
  doc_name : String
  doc_id : String
  chunk_id : Nat
deriving DecidableEq

/-- Oracles for the external collaborators of the retrieval pipeline. -/
structure RetrievalEnv where
  /-- whether `pinecone_index` is initialized (non-`None`). -/
  indexReady : Bool
  /-- `generate_embedding` for the query. -/
  embed : String → Except String (List ℚ)
  /-- `pinecone_index.query` (vector, namespace, top_k), plus the
  match-formatting loop of lines 45-56. -/
  queryIndex : List ℚ → String → Nat → Except String (List SearchResult)
  /-- `openai_client.chat.completions.create` (system prompt, user prompt). -/
  generate : String → String → Except String String

/-- `search_similar_documents`: raises if the index is uninitialized,
embeds the query, searches namespace `f"user_{user_id}"`, re-raising any
failure. -/
def search_similar_documents (env : RetrievalEnv) (query user_id : String)
    (top_k : Nat) : Except String (List SearchResult) :=
  if !env.indexReady then .error "Pinecone index not initialized"
  else do
    let query_embedding ← env.embed query
    env.queryIndex query_embedding ("user_" ++ user_id) top_k

/-- The citation-attributed form of a chunk in the context:
`f"[From {doc_name}]: {text}"`. -/
def formatChunk (c : SearchResult) : String :=
  "[From " ++ c.doc_name ++ "]: " ++ c.text

/-- The context-assembly loop of lines 84-99: walk the chunks in order,
breaking before the first whose formatted text would push the running
character count (`current_length`) over `max_context_length`. -/
def buildContextParts (current_length max_context_length : Nat) :
    List SearchResult → List String
  | [] => []
  | c :: cs =>
    let chunk_text := formatChunk c
    if current_length + chunk_text.length > max_context_length then []
    else chunk_text :: buildContextParts (current_length + chunk_text.length)
      max_context_length cs

/-- The assembled context: the selected parts joined by `"\n\n"`
(line 101). -/
def assembleContext (chunks : List SearchResult) (max_context_length : Nat) :
    String :=
  String.intercalate "\n\n" (buildContextParts 0 max_context_length chunks)

/-- Fixed response when `generate_response_with_context` gets no chunks. -/
def noChunksMsg : String :=
  "I couldn't find any relevant information in your documents to answer that question."

/-- Fixed response when the top-K search returns zero matches
(lines 187-191). -/
def noMatchesMsg : String :=
  "I couldn't find any relevant information in your documents to answer that question. Please make sure you have uploaded documents and they have been processed successfully."

/-- Fixed degraded response of the failure boundary (lines 204-209). -/
def errorMsg : String :=
  "I'm sorry, I encountered an error while processing your question. Please try again later."

/-- The fixed instruction template (lines 104-111). -/
def systemPrompt : String :=
  "You are a helpful assistant that answers questions based on provided document context. \n    \n    Instructions:\n    1. Answer the question using ONLY the information provided in the context\n    2. If the context doesn't contain enough information, say so clearly\n    3. Be concise and accurate\n    4. When possible, mention which document(s) you're referencing\n    5. Do not make up information not present in the context"

/-- The user prompt built around the assembled context (lines 113-118). -/
def userPrompt (context query : String) : String :=
  "Context from documents:\n" ++ context ++ "\n\nQuestion: " ++ query ++
    "\n\nPlease provide a clear answer based on the context above."

/-- `generate_response_with_context`: fixed message on an empty chunk
list, otherwise assemble the bounded context and call the generation
provider, re-raising its failure. -/
def generate_response_with_context (env : RetrievalEnv) (query : String)
    (context_chunks : List SearchResult) (max_context_length : Nat) :
    Except String String :=
  if context_chunks.isEmpty then .ok noChunksMsg
  else env.generate systemPrompt
    (userPrompt (assembleContext context_chunks max_context_length) query)

/-- A deduplicated source citation. -/
structure Source where
  doc_name : String
  doc_id : String
  relevance_score : ℚ
deriving DecidableEq

/-- Python's `round(q, 3)`: round to the nearest multiple of 1/1000. -/
def round3 (q : ℚ) : ℚ := (round (q * 1000) : ℚ) / 1000

/-- One step of the deduplication loop of `extract_source_citations`
(lines 150-161): a dict update keyed by `doc_name`, replacing an entry in
place when the new raw score beats the stored (rounded) one, appending a
fresh entry for an unseen `doc_name`. -/
def citeInsert (sources : List Source) (r : SearchResult) : List Source :=
  if sources.any (fun s => s.doc_name = r.doc_name) then
    sources.map (fun s =>
      if s.doc_name = r.doc_name ∧ s.relevance_score < r.score then
        ⟨r.doc_name, r.doc_id, round3 r.score⟩
      else s)
  else sources ++ [⟨r.doc_name, r.doc_id, round3 r.score⟩]

/-- The insertion-ordered dict `sources` after the whole loop, i.e.
`sources.values()` in first-seen order of `doc_name`. -/
def dedupSources (search_results : List SearchResult) : List Source :=
  search_results.foldl citeInsert []

/-- The descending-score order used by `sorted(..., reverse=True)`. -/
def citeGE (a b : Source) : Prop := b.relevance_score ≤ a.relevance_score

instance : DecidableRel citeGE := fun a b =>
  inferInstanceAs (Decidable (b.relevance_score ≤ a.relevance_score))

/-- `extract_source_citations`: deduplicate by `doc_name` keeping the best
score, then sort by score descending (stably, as Python's `sorted` does). -/
def extract_source_citations (search_results : List SearchResult) : List Source :=
  List.insertionSort citeGE (dedupSources search_results)

/-- A `{response, sources}` result of the query path. -/
structure ChatResult where
  response : String
  sources : List Source
deriving DecidableEq

/-- `search_and_generate_response` (lines 172-209): the full query
pipeline inside its failure boundary. Top-K is 5; any exception from
search (index readiness, embedding, vector query) or generation is
converted into the fixed degraded response with no sources. -/
def search_and_generate_response (env : RetrievalEnv) (query user_id : String) :
    ChatResult :=
  match (do
    let search_results ← search_similar_documents env query user_id 5
    if search_results.isEmpty then
      pure (⟨noMatchesMsg, []⟩ : ChatResult)
    else do
      let response ← generate_response_with_context env query search_results 4000
      pure (⟨response, extract_source_citations search_results⟩ : ChatResult)
    : Except String ChatResult) with
  | .ok r => r
  | .error _ => ⟨errorMsg, []⟩

/-- Outcome of the `/chat` HTTP endpoint: either an HTTP rejection
(status code, detail) or an answered request. -/
inductive ChatOutcome where
  | rejected : Nat → String → ChatOutcome
  | answered : ChatResult → ChatOutcome
deriving DecidableEq

/-- The `/chat` handler of `main.py` (lines 207-230): strip the query,
reject empty (400) and over-long (400) queries, then run the pipeline. -/
def chat (env : RetrievalEnv) (rawQuery user_id : String) : ChatOutcome :=
  let query := pyStrip rawQuery
  if query = "" then .rejected 400 "Query cannot be empty"
  else if query.length > 1000 then .rejected 400 "Query too long (max 1000 characters)"
  else .answered (search_and_generate_response env query user_id)

/-! ## Injectivity of vector ids

Distinct chunk indices give distinct ids `f"{doc_id}_chunk_{i}"`: the
decimal rendering of `Nat` is injective. -/

theorem digitVal_digitChar (n : Nat) (h : n < 10) :
    digitVal (Nat.digitChar n) = n := by
  interval_cases n <;> rfl

theorem unDigits_append (xs : List Char) (c : Char) :
    unDigits (xs ++ [c]) = unDigits xs * 10 + digitVal c := by
  simp [unDigits, List.foldl_append]

theorem unDigits_natDigits (n : Nat) : unDigits (natDigits n) = n := by
  induction n using Nat.strong_induction_on with
  | _ n ih =>
    rw [natDigits]
    split
    · rename_i h
      show unDigits ([] ++ [Nat.digitChar n]) = n
      rw [unDigits_append, digitVal_digitChar n h]
      simp [unDigits]
    · rename_i h
      rw [unDigits_append, ih (n / 10) (Nat.div_lt_self (by omega) (by omega)),
        digitVal_digitChar (n % 10) (Nat.mod_lt n (by omega))]
      omega

theorem natDigits_injective {m n : Nat} (h : natDigits m = natDigits n) : m = n := by
  rw [← unDigits_natDigits m, h, unDigits_natDigits]

theorem toDigitsCore_eq_natDigits :
    ∀ fuel n ds, n < fuel → Nat.toDigitsCore 10 fuel n ds = natDigits n ++ ds := by
  intro fuel
  induction fuel with
  | zero => omega
  | succ f ih =>
    intro n ds h
    rw [Nat.toDigitsCore]
    by_cases h10 : n / 10 = 0
    · have hn : n < 10 := by omega
      rw [if_pos h10, natDigits, dif_pos hn, Nat.mod_eq_of_lt hn]
      rfl
    · have hn : ¬n < 10 := by omega
      have hlt : n / 10 < f := by
        have := Nat.div_lt_self (n := n) (by omega) (by omega : 1 < 10)
        omega
      rw [if_neg h10, ih (n / 10) _ hlt]
      conv_rhs => rw [natDigits]
      rw [dif_neg hn, List.append_assoc]
      rfl

theorem toString_nat_eq_natDigits (n : Nat) : toString n = String.mk (natDigits n) := by
  show (Nat.toDigits 10 n).asString = _
  rw [Nat.toDigits, toDigitsCore_eq_natDigits (n + 1) n [] (by omega), List.append_nil]
  rfl

theorem toString_nat_injective {m n : Nat} (h : toString m = toString n) : m = n := by
  rw [toString_nat_eq_natDigits, toString_nat_eq_natDigits] at h
  exact natDigits_injective (congrArg String.data h)

theorem vecId_injective (doc_id : String) {i j : Nat}
    (h : vecId doc_id i = vecId doc_id j) : i = j := by
  unfold vecId at h
  rw [toString_nat_eq_natDigits, toString_nat_eq_natDigits] at h
  have hd := congrArg String.data h
  rw [String.data_append, String.data_append] at hd
  exact natDigits_injective (List.append_cancel_left hd)

/-! ## Lemmas about the vector index -/

theorem lookupVec_nil (ns id : String) : lookupVec [] ns id = none := rfl

theorem lookupVec_eq_none_iff (st : IndexState) (ns id : String) :
    lookupVec st ns id = none ↔ ∀ e ∈ st, e.1 ≠ (ns, id) := by
  simp [lookupVec, List.find?_eq_none]

theorem lookupVec_upsertOne_self (st : IndexState) (ns id : String) (v : StoredVector) :
    lookupVec (upsertOne st (ns, id) v) ns id = some v := by
  induction st with
  | nil => simp [upsertOne, lookupVec, List.find?]
  | cons e rest ih =>
    by_cases he : e.1 = (ns, id)
    · simp [upsertOne, he, lookupVec, List.find?]
    · simpa [upsertOne, he, lookupVec, List.find?] using ih

theorem lookupVec_upsertOne_ne (st : IndexState) (k : String × String)
    (ns id : String) (v : StoredVector) (h : k ≠ (ns, id)) :
    lookupVec (upsertOne st k v) ns id = lookupVec st ns id := by
  have h' : ¬((ns, id) = k) := fun he => h he.symm
  induction st with
  | nil => simp [upsertOne, lookupVec, List.find?, h', h]
  | cons e rest ih =>
    by_cases he : e.1 = k
    · simp [upsertOne, he, lookupVec, List.find?, h', h]
    · by_cases hei : e.1 = (ns, id)
      · simp [upsertOne, he, lookupVec, List.find?, hei, h, h']
      · simpa [upsertOne, he, lookupVec, List.find?, hei, h, h'] using ih

theorem upsertOne_of_lookup_eq (st : IndexState) (ns id : String) (v : StoredVector)
    (h : lookupVec st ns id = some v) : upsertOne st (ns, id) v = st := by
  induction st with
  | nil => simp [lookupVec, List.find?] at h
  | cons e rest ih =>
    by_cases he : e.1 = (ns, id)
    · have hv : e.2 = v := by
        simp [lookupVec, List.find?, he] at h
        exact h
      cases e
      simp_all [upsertOne]
    · simp only [lookupVec, List.find?] at h
      rw [show (decide (e.1 = (ns, id))) = false by simpa using he] at h
      simp [upsertOne, he, ih h]

theorem upsertOne_of_lookup_none (st : IndexState) (ns id : String) (v : StoredVector)
    (h : lookupVec st ns id = none) : upsertOne st (ns, id) v = st ++ [((ns, id), v)] := by
  induction st with
  | nil => simp [upsertOne]
  | cons e rest ih =>
    by_cases he : e.1 = (ns, id)
    · simp [lookupVec, List.find?, he] at h
    · simp only [lookupVec, List.find?] at h
      rw [show (decide (e.1 = (ns, id))) = false by simpa using he] at h
      simp [upsertOne, he, ih h]

theorem lookupVec_upsertAll_not_mem (st : IndexState) (ns : String)
    (vs : List (String × StoredVector)) (ns' id : String)
    (h : ∀ kv ∈ vs, (ns, kv.1) ≠ (ns', id)) :
    lookupVec (upsertAll st ns vs) ns' id = lookupVec st ns' id := by
  induction vs generalizing st with
  | nil => rfl
  | cons kv rest ih =>
    show lookupVec (upsertAll (upsertOne st (ns, kv.1) kv.2) ns rest) ns' id = _
    rw [ih _ (fun kv' h' => h kv' (List.mem_cons_of_mem _ h')),
      lookupVec_upsertOne_ne _ _ _ _ _ (h kv (List.mem_cons_self _ _))]

theorem lookupVec_upsertAll_mem (st : IndexState) (ns : String)
    (vs : List (String × StoredVector)) (id : String) (v : StoredVector)
    (hnd : (vs.map (·.1)).Nodup) (h : (id, v) ∈ vs) :
    lookupVec (upsertAll st ns vs) ns id = some v := by
  induction vs generalizing st with
  | nil => simp at h
  | cons kv rest ih =>
    simp only [List.map_cons, List.nodup_cons] at hnd
    rcases List.mem_cons.mp h with h | h
    · subst h
      show lookupVec (upsertAll (upsertOne st (ns, id) v) ns rest) ns id = some v
      rw [lookupVec_upsertAll_not_mem]
      · exact lookupVec_upsertOne_self st ns id v
      · intro kv' h' he
        have : kv'.1 = id := congrArg Prod.snd he
        exact hnd.1 (this ▸ List.mem_map_of_mem (·.1) h')
    · exact ih _ hnd.2 h

theorem upsertAll_of_all_lookup_eq (st : IndexState) (ns : String)
    (vs : List (String × StoredVector))
    (h : ∀ kv ∈ vs, lookupVec st ns kv.1 = some kv.2) :
    upsertAll st ns vs = st := by
  induction vs with
  | nil => rfl
  | cons kv rest ih =>
    show upsertAll (upsertOne st (ns, kv.1) kv.2) ns rest = st
    rw [upsertOne_of_lookup_eq st ns kv.1 kv.2 (h kv (List.mem_cons_self _ _))]
    exact ih (fun kv' h' => h kv' (List.mem_cons_of_mem _ h'))

theorem upsertAll_of_all_lookup_none (st : IndexState) (ns : String)
    (vs : List (String × StoredVector)) (hnd : (vs.map (·.1)).Nodup)
    (h : ∀ kv ∈ vs, lookupVec st ns kv.1 = none) :
    upsertAll st ns vs = st ++ vs.map (fun kv => ((ns, kv.1), kv.2)) := by
  induction vs generalizing st with
  | nil => simp [upsertAll]
  | cons kv rest ih =>
    simp only [List.map_cons, List.nodup_cons] at hnd
    have hrest : ∀ kv' ∈ rest,
        lookupVec (st ++ [((ns, kv.1), kv.2)]) ns kv'.1 = none := by
      intro kv' h'
      rw [lookupVec_eq_none_iff]
      intro e he
      rcases List.mem_append.mp he with he | he
      · exact (lookupVec_eq_none_iff st ns kv'.1).mp
          (h kv' (List.mem_cons_of_mem _ h')) e he
      · have : e = ((ns, kv.1), kv.2) := by simpa using he
        subst this
        intro hcon
        have : kv.1 = kv'.1 := congrArg Prod.snd hcon
        exact hnd.1 (this ▸ List.mem_map_of_mem (·.1) h')
    calc upsertAll (upsertOne st (ns, kv.1) kv.2) ns rest
        = upsertAll (st ++ [((ns, kv.1), kv.2)]) ns rest := by
          rw [upsertOne_of_lookup_none st ns kv.1 kv.2 (h kv (List.mem_cons_self _ _))]
      _ = (st ++ [((ns, kv.1), kv.2)]) ++ rest.map (fun kv => ((ns, kv.1), kv.2)) :=
          ih _ hnd.2 hrest
      _ = st ++ (kv :: rest).map (fun kv => ((ns, kv.1), kv.2)) := by
          rw [List.append_assoc]; rfl

theorem upsertAll_append (st : IndexState) (ns : String)
    (vs ws : List (String × StoredVector)) :
    upsertAll st ns (vs ++ ws) = upsertAll (upsertAll st ns vs) ns ws :=
  List.foldl_append _ _ _ _

theorem upsertBatches_eq_upsertAll (st : IndexState) (ns : String)
    (vs : List (String × StoredVector)) :
    upsertBatches st ns vs = upsertAll st ns vs := by
  have H : ∀ n (st : IndexState) (vs : List (String × StoredVector)),
      vs.length ≤ n → upsertBatches st ns vs = upsertAll st ns vs := by
    intro n
    induction n with
    | zero =>
      intro st vs h
      have : vs = [] := List.length_eq_zero.mp (Nat.le_zero.mp h)
      subst this
      rw [upsertBatches]
      rfl
    | succ n ih =>
      intro st vs h
      match vs with
      | [] =>
        rw [upsertBatches]
        rfl
      | v :: rest =>
        rw [upsertBatches,
          ih _ _ (by simp only [List.length_drop, List.length_cons] at h ⊢; omega),
          ← upsertAll_append, List.take_append_drop]
  exact H vs.length st vs le_rfl

/-! ## Lemmas about the per-chunk embedding loop -/

theorem mem_buildVectorsFrom (embed : String → Except String (List ℚ))
    (uid doc fn : String) :
    ∀ (chunks : List String) (i₀ : Nat) (kv : String × StoredVector),
      kv ∈ buildVectorsFrom embed uid doc fn i₀ chunks ↔
        ∃ j c emb, chunks[j]? = some c ∧ embed c = .ok emb ∧
          kv = mkVector uid doc fn (i₀ + j) c emb := by
  intro chunks
  induction chunks with
  | nil => simp [buildVectorsFrom]
  | cons c cs ih =>
    intro i₀ kv
    cases hc : embed c with
    | error e =>
      simp only [buildVectorsFrom, hc, ih (i₀ + 1) kv]
      constructor
      · rintro ⟨j, c', emb, hj, hemb, hkv⟩
        exact ⟨j + 1, c', emb, by simpa using hj, hemb, by
          rw [show i₀ + (j + 1) = i₀ + 1 + j by omega]; exact hkv⟩
      · rintro ⟨j, c', emb, hj, hemb, hkv⟩
        match j with
        | 0 =>
          simp at hj
          rw [← hj] at hemb
          rw [hemb] at hc
          exact absurd hc (by simp)
        | j' + 1 =>
          exact ⟨j', c', emb, by simpa using hj, hemb, by
            rw [show i₀ + 1 + j' = i₀ + (j' + 1) by omega]; exact hkv⟩
    | ok emb =>
      simp only [buildVectorsFrom, hc, List.mem_cons, ih (i₀ + 1) kv]
      constructor
      · rintro (hkv | ⟨j, c', emb', hj, hemb, hkv⟩)
        · exact ⟨0, c, emb, by simp, hc, by simpa using hkv⟩
        · exact ⟨j + 1, c', emb', by simpa using hj, hemb, by
            rw [show i₀ + (j + 1) = i₀ + 1 + j by omega]; exact hkv⟩
      · rintro ⟨j, c', emb', hj, hemb, hkv⟩
        match j with
        | 0 =>
          simp at hj
          subst hj
          rw [hemb] at hc
          have : emb' = emb := by injection hc
          subst this
          exact Or.inl (by simpa using hkv)
        | j' + 1 =>
          exact Or.inr ⟨j', c', emb', by simpa using hj, hemb, by
            rw [show i₀ + 1 + j' = i₀ + (j' + 1) by omega]; exact hkv⟩

theorem buildVectorsFrom_ids_nodup (embed : String → Except String (List ℚ))
    (uid doc fn : String) :
    ∀ (chunks : List String) (i₀ : Nat),
      ((buildVectorsFrom embed uid doc fn i₀ chunks).map (·.1)).Nodup := by
  intro chunks
  induction chunks with
  | nil => simp [buildVectorsFrom]
  | cons c cs ih =>
    intro i₀
    cases hc : embed c with
    | error e => simpa [buildVectorsFrom, hc] using ih (i₀ + 1)
    | ok emb =>
      simp only [buildVectorsFrom, hc, List.map_cons, List.nodup_cons]
      refine ⟨?_, ih (i₀ + 1)⟩
      intro hmem
      rcases List.mem_map.mp hmem with ⟨kv, hkv, hid⟩
      rcases (mem_buildVectorsFrom embed uid doc fn cs (i₀ + 1) kv).mp hkv with
        ⟨j, c', emb', _, _, hkveq⟩
      have : kv.1 = vecId doc (i₀ + 1 + j) := by rw [hkveq]; rfl
      rw [this] at hid
      have : i₀ + 1 + j = i₀ := vecId_injective doc hid
      omega

theorem buildVectorsFrom_eq_nil_iff (embed : String → Except String (List ℚ))
    (uid doc fn : String) (chunks : List String) (i₀ : Nat) :
    buildVectorsFrom embed uid doc fn i₀ chunks = [] ↔
      ∀ (j : Nat) (c : String), chunks[j]? = some c → ∃ e, embed c = .error e := by
  rw [List.eq_nil_iff_forall_not_mem]
  constructor
  · intro h j c hj
    cases hc : embed c with
    | error e => exact ⟨e, rfl⟩
    | ok emb =>
      exact absurd ((mem_buildVectorsFrom embed uid doc fn chunks i₀ _).mpr
        ⟨j, c, emb, hj, hc, rfl⟩) (h _)
  · intro h kv hkv
    rcases (mem_buildVectorsFrom embed uid doc fn chunks i₀ kv).mp hkv with
      ⟨j, c, emb, hj, hemb, _⟩
    rcases h j c hj with ⟨e, he⟩
    rw [hemb] at he
    exact absurd he (by simp)

/-! ## Lemmas about context assembly -/

/-- Total character count of a list of context parts (the quantity the
loop tracks in `current_length`, which excludes the `"\n\n"` separators
inserted by `join`). -/
def sumLens (l : List String) : Nat := (l.map String.length).sum

theorem buildContextParts_sum_le :
    ∀ (chunks : List SearchResult) (cur maxLen : Nat), cur ≤ maxLen →
      cur + sumLens (buildContextParts cur maxLen chunks) ≤ maxLen := by
  intro chunks
  induction chunks with
  | nil =>
    intro cur maxLen h
    simpa [buildContextParts, sumLens] using h
  | cons c cs ih =>
    intro cur maxLen h
    rw [buildContextParts]
    split
    · simpa [sumLens] using h
    · rename_i hfit
      have := ih (cur + (formatChunk c).length) maxLen (by omega)
      simp only [sumLens, List.map_cons, List.sum_cons] at *
      omega

theorem buildContextParts_take :
    ∀ (chunks : List SearchResult) (cur maxLen : Nat),
      ∃ k, buildContextParts cur maxLen chunks = (chunks.take k).map formatChunk ∧
        (k = chunks.length ∨
          ∃ c cs', chunks.drop k = c :: cs' ∧
            cur + sumLens (buildContextParts cur maxLen chunks) +
              (formatChunk c).length > maxLen) := by
  intro chunks
  induction chunks with
  | nil =>
    intro cur maxLen
    exact ⟨0, by simp [buildContextParts], Or.inl rfl⟩
  | cons c cs ih =>
    intro cur maxLen
    rw [buildContextParts]
    split
    · rename_i hbig
      exact ⟨0, by simp, Or.inr ⟨c, cs, rfl, by simpa [sumLens] using hbig⟩⟩
    · rename_i hfit
      rcases ih (cur + (formatChunk c).length) maxLen with ⟨k, hk, hrest⟩
      refine ⟨k + 1, by simpa [List.take_succ_cons] using congrArg (formatChunk c :: ·) hk, ?_⟩
      rcases hrest with hrest | ⟨c', cs', hd, hgt⟩
      · exact Or.inl (by simp [hrest])
      · exact Or.inr ⟨c', cs', by simpa using hd, by
          simp only [sumLens, List.map_cons, List.sum_cons] at *
          omega⟩

theorem intercalate_go_length (l : List String) :
    ∀ (acc s : String), (String.intercalate.go acc s l).length =
      acc.length + (l.map (fun t => s.length + t.length)).sum := by
  induction l with
  | nil => intro acc s; simp [String.intercalate.go]
  | cons a as ih =>
    intro acc s
    simp [String.intercalate.go, ih]
    ring

theorem intercalate_length_cons (s a : String) (as : List String) :
    (String.intercalate s (a :: as)).length = sumLens (a :: as) + s.length * as.length := by
  show (String.intercalate.go a s as).length = _
  rw [intercalate_go_length]
  have : (as.map (fun t => s.length + t.length)).sum
      = s.length * as.length + (as.map String.length).sum := by
    induction as with
    | nil => simp
    | cons b bs ihb => simp [ihb]; ring
  rw [this]
  simp only [sumLens, List.map_cons, List.sum_cons]
  ring

/-! ## Lemmas about score rounding

`round3` models Python's `round(x, 3)` on exact rationals: the nearest
multiple of 1/1000. The two lemmas below say that replacing `m` by a
nearby score `sc` (in the precise way the `extract_source_citations`
comparison against an already-rounded stored value allows) cannot change
the rounded value. -/

theorem round3_repr (q : ℚ) :
    round3 q = ((round (q * 1000) : ℤ) : ℚ) / 1000 := rfl

theorem round_mem_halfopen (y : ℚ) :
    ((round y : ℤ) : ℚ) - 1/2 ≤ y ∧ y < ((round y : ℤ) : ℚ) + 1/2 := by
  rw [round_eq]
  constructor
  · have := Int.floor_le (y + 1/2)
    linarith
  · have := Int.lt_floor_add_one (y + 1/2)
    linarith

theorem round_eq_of_halfopen (k : ℤ) (y : ℚ)
    (h1 : (k : ℚ) - 1/2 ≤ y) (h2 : y < (k : ℚ) + 1/2) : round y = k := by
  rw [round_eq, Int.floor_eq_iff]
  constructor
  · linarith
  · push_cast
    linarith

theorem round3_stable_up {m sc : ℚ} (h1 : round3 m < sc) (h2 : sc ≤ m) :
    round3 sc = round3 m := by
  have hb := round_mem_halfopen (m * 1000)
  rw [round3_repr] at h1 ⊢
  rw [round3_repr]
  have : round (sc * 1000) = round (m * 1000) := by
    apply round_eq_of_halfopen
    · have : ((round (m * 1000) : ℤ) : ℚ) < sc * 1000 := by
        rw [div_lt_iff (by norm_num)] at h1
        linarith
      linarith
    · nlinarith
  rw [this]

theorem round3_stable_down {m sc : ℚ} (h1 : sc ≤ round3 m) (h2 : m < sc) :
    round3 sc = round3 m := by
  have hb := round_mem_halfopen (m * 1000)
  rw [round3_repr] at h1 ⊢
  rw [round3_repr]
  have : round (sc * 1000) = round (m * 1000) := by
    apply round_eq_of_halfopen
    · nlinarith
    · have : sc * 1000 ≤ ((round (m * 1000) : ℤ) : ℚ) := by
        rw [le_div_iff (by norm_num)] at h1
        linarith
      linarith
  rw [this]

/-! ## Lemmas about citation extraction -/

/-- All raw scores observed for a given `doc_name`. -/
def scoresFor (results : List SearchResult) (name : String) : List ℚ :=
  (results.filter (fun r => r.doc_name = name)).map (fun r => r.score)

/-- Invariant of the deduplication loop after processing the prefix
`processed`: names are unique, each stored (already rounded) score is the
rounding of the best raw score seen for that name, and every processed
name is represented. -/
def CiteInv (processed : List SearchResult) (acc : List Source) : Prop :=
  (acc.map (·.doc_name)).Nodup ∧
  (∀ s ∈ acc, ∃ m, m ∈ scoresFor processed s.doc_name ∧
    (∀ x ∈ scoresFor processed s.doc_name, x ≤ m) ∧ s.relevance_score = round3 m) ∧
  (∀ r ∈ processed, ∃ s ∈ acc, s.doc_name = r.doc_name)

theorem scoresFor_append (processed : List SearchResult) (r : SearchResult)
    (name : String) :
    scoresFor (processed ++ [r]) name =
      scoresFor processed name ++ (if r.doc_name = name then [r.score] else []) := by
  simp only [scoresFor, List.filter_append]
  split <;> simp_all

theorem citeInsert_doc_name (s : Source) (r : SearchResult) :
    ((if s.doc_name = r.doc_name ∧ s.relevance_score < r.score then
      (⟨r.doc_name, r.doc_id, round3 r.score⟩ : Source) else s)).doc_name = s.doc_name := by
  split
  · rename_i hcond
    exact hcond.1.symm
  · rfl

theorem citeInsert_inv (processed : List SearchResult) (acc : List Source)
    (r : SearchResult) (h : CiteInv processed acc) :
    CiteInv (processed ++ [r]) (citeInsert acc r) := by
  obtain ⟨hnd, hmax, hcov⟩ := h
  by_cases hany : acc.any (fun s => s.doc_name = r.doc_name)
  · -- doc_name already present: in-place dict update
    rw [citeInsert, if_pos hany]
    have hmapname : (acc.map (fun s =>
        if s.doc_name = r.doc_name ∧ s.relevance_score < r.score then
          (⟨r.doc_name, r.doc_id, round3 r.score⟩ : Source) else s)).map (·.doc_name)
        = acc.map (·.doc_name) := by
      rw [List.map_map]
      exact List.map_congr_left (fun s _ => citeInsert_doc_name s r)
    refine ⟨by rw [hmapname]; exact hnd, ?_, ?_⟩
    · intro s' hs'
      rcases List.mem_map.mp hs' with ⟨s, hs, hfs⟩
      rcases hmax s hs with ⟨m, hmem, hub, hsc⟩
      by_cases hname : s.doc_name = r.doc_name
      · -- the updated (or kept) entry for r.doc_name
        have hsname : s'.doc_name = s.doc_name := by rw [← hfs]; exact citeInsert_doc_name s r
        rw [hsname, scoresFor_append, if_pos hname.symm]
        by_cases hlt : s.relevance_score < r.score
        · -- replaced by the new rounded score
          have hs' : s' = ⟨r.doc_name, r.doc_id, round3 r.score⟩ := by
            rw [← hfs, if_pos ⟨hname, hlt⟩]
          rcases le_or_lt r.score m with hrm | hrm
          · -- old max still maximal; rounding unchanged by `round3_stable_up`
            refine ⟨m, by simp [hmem], ?_, ?_⟩
            · intro x hx
              rcases List.mem_append.mp hx with hx | hx
              · exact hub x hx
              · simp at hx
                exact hx ▸ hrm
            · rw [hs']
              show round3 r.score = round3 m
              exact round3_stable_up (by rw [← hsc]; exact hlt) hrm
          · -- new score is the new max
            refine ⟨r.score, by simp, ?_, by rw [hs']⟩
            intro x hx
            rcases List.mem_append.mp hx with hx | hx
            · exact le_of_lt (lt_of_le_of_lt (hub x hx) hrm)
            · simp at hx
              exact le_of_eq hx
        · -- kept: stored rounded score already dominates
          have hs'eq : s' = s := by rw [← hfs, if_neg (by tauto)]
          push_neg at hlt
          rcases le_or_lt r.score m with hrm | hrm
          · refine ⟨m, by simp [hmem], ?_, by rw [hs'eq]; exact hsc⟩
            intro x hx
            rcases List.mem_append.mp hx with hx | hx
            · exact hub x hx
            · simp at hx
              exact hx ▸ hrm
          · refine ⟨r.score, by simp, ?_, ?_⟩
            · intro x hx
              rcases List.mem_append.mp hx with hx | hx
              · exact le_of_lt (lt_of_le_of_lt (hub x hx) hrm)
              · simp at hx
                exact le_of_eq hx
            · rw [hs'eq, hsc]
              exact (round3_stable_down (by rw [← hsc]; exact hlt) hrm).symm
      · -- unrelated entry: untouched, scores unchanged
        have hs'eq : s' = s := by rw [← hfs, if_neg (by tauto)]
        rw [hs'eq, scoresFor_append, if_neg (fun he => hname he.symm)]
        exact ⟨m, by simp [hmem], by simpa using hub, hsc⟩
    · intro r' hr'
      rcases List.mem_append.mp hr' with hr' | hr'
      · rcases hcov r' hr' with ⟨s, hs, hname⟩
        exact ⟨_, List.mem_map_of_mem _ hs, by rw [citeInsert_doc_name]; exact hname⟩
      · simp at hr'
        subst hr'
        rcases List.any_eq_true.mp hany with ⟨s, hs, hname⟩
        simp at hname
        exact ⟨_, List.mem_map_of_mem _ hs, by rw [citeInsert_doc_name]; exact hname⟩
  · -- unseen doc_name: fresh entry appended
    rw [citeInsert, if_neg hany]
    have hnone : ∀ s ∈ acc, s.doc_name ≠ r.doc_name := by
      intro s hs he
      exact hany (List.any_eq_true.mpr ⟨s, hs, by simp [he]⟩)
    have hfresh : scoresFor processed r.doc_name = [] := by
      rw [scoresFor, List.map_eq_nil, List.filter_eq_nil]
      intro r' hr' he
      simp at he
      rcases hcov r' hr' with ⟨s, hs, hname⟩
      exact hnone s hs (by rw [hname, he])
    refine ⟨?_, ?_, ?_⟩
    · simp only [List.map_append, List.map_cons, List.map_nil]
      rw [List.nodup_append]
      exact ⟨hnd, List.nodup_singleton _, by
        intro a ha hb
        simp at hb
        rcases List.mem_map.mp ha with ⟨s, hs, hsa⟩
        exact hnone s hs (by rw [hsa, hb])⟩
    · intro s' hs'
      rcases List.mem_append.mp hs' with hs' | hs'
      · rcases hmax s' hs' with ⟨m, hmem, hub, hsc⟩
        rw [scoresFor_append, if_neg (fun he => hnone s' hs' he.symm)]
        exact ⟨m, by simp [hmem], by simpa using hub, hsc⟩
      · simp at hs'
        subst hs'
        refine ⟨r.score, ?_, ?_, rfl⟩
        · rw [scoresFor_append]
          simp [hfresh]
        · intro x hx
          rw [scoresFor_append] at hx
          simp [hfresh] at hx
          exact le_of_eq hx
    · intro r' hr'
      rcases List.mem_append.mp hr' with hr' | hr'
      · rcases hcov r' hr' with ⟨s, hs, hname⟩
        exact ⟨s, List.mem_append_left _ hs, hname⟩
      · simp at hr'
        subst hr'
        exact ⟨_, List.mem_append_right _ (List.mem_singleton_self _), rfl⟩

theorem dedupSources_inv (search_results : List SearchResult) :
    CiteInv search_results (dedupSources search_results) := by
  have H : ∀ (l processed : List SearchResult) (acc : List Source),
      CiteInv processed acc → CiteInv (processed ++ l) (l.foldl citeInsert acc) := by
    intro l
    induction l with
    | nil => intro processed acc h; simpa using h
    | cons r l' ih =>
      intro processed acc h
      have := ih (processed ++ [r]) (citeInsert acc r) (citeInsert_inv processed acc r h)
      simpa using this
  have h0 : CiteInv [] [] := by
    refine ⟨List.nodup_nil, ?_, ?_⟩ <;> simp
  simpa using H search_results [] [] h0

instance : IsTotal Source citeGE :=
  ⟨fun a b => le_total b.relevance_score a.relevance_score⟩

instance : IsTrans Source citeGE :=
  ⟨fun _ _ _ h1 h2 => le_trans h2 h1⟩

/-- Stability of `orderedInsert` on an equal-score class: entries with any
fixed score are never reordered, because an element is only ever inserted
after elements with strictly greater score. -/
theorem filter_orderedInsert_score (q : ℚ) (a : Source) (l : List Source) :
    (List.orderedInsert citeGE a l).filter (fun s => decide (s.relevance_score = q)) =
      if a.relevance_score = q then
        a :: l.filter (fun s => decide (s.relevance_score = q))
      else l.filter (fun s => decide (s.relevance_score = q)) := by
  induction l with
  | nil =>
    simp only [List.orderedInsert, List.filter]
    split <;> rename_i h
    · rw [if_pos (by simpa using h)]
    · rw [if_neg (by simpa using h)]
  | cons b l ih =>
    rw [List.orderedInsert]
    by_cases hab : citeGE a b
    · rw [if_pos hab]
      by_cases ha : a.relevance_score = q
      · rw [if_pos ha]
        simp [List.filter, ha]
      · rw [if_neg ha]
        simp [List.filter, ha]
    · rw [if_neg hab]
      by_cases ha : a.relevance_score = q
      · have hb : ¬b.relevance_score = q := by
          intro hb
          exact hab (by rw [citeGE, hb, ha])
        rw [if_pos ha]
        simp only [List.filter, hb, decide_eq_true_eq, decide_eq_false hb]
        rw [ih, if_pos ha]
        simp
      · rw [if_neg ha]
        by_cases hb : b.relevance_score = q
        · simp only [List.filter, decide_eq_true_eq, decide_eq_true hb]
          rw [ih, if_neg ha]
        · simp only [List.filter, decide_eq_false hb]
          rw [ih, if_neg ha]

/-- Stability of the model of Python's `sorted`: the sublist of entries
carrying any fixed score is preserved. -/
theorem filter_insertionSort_score (q : ℚ) (l : List Source) :
    (List.insertionSort citeGE l).filter (fun s => decide (s.relevance_score = q)) =
      l.filter (fun s => decide (s.relevance_score = q)) := by
  induction l with
  | nil => rfl
  | cons a l ih =>
    rw [List.insertionSort, filter_orderedInsert_score]
    by_cases ha : a.relevance_score = q
    · rw [if_pos ha, ih]
      simp [List.filter, ha]
    · rw [if_neg ha, ih]
      simp [List.filter, ha, decide_eq_false ha]

/-! ## Reduction lemmas for the `Except` monad -/

@[simp] theorem exceptBind_ok {α β : Type} (a : α) (f : α → Except String β) :
    (Except.ok a >>= f : Except String β) = f a := rfl

@[simp] theorem exceptBind_error {α β : Type} (e : String) (f : α → Except String β) :
    (Except.error e >>= f : Except String β) = Except.error e := rfl

@[simp] theorem exceptMap_ok {α β : Type} (a : α) (f : α → β) :
    (f <$> Except.ok a : Except String β) = Except.ok (f a) := rfl

@[simp] theorem exceptMap_error {α β : Type} (e : String) (f : α → β) :
    (f <$> Except.error e : Except String β) = Except.error e := rfl

@[simp] theorem exceptPure_eq {α : Type} (a : α) :
    (pure a : Except String α) = Except.ok a := rfl

/-! ## Claim theorems -/

/-- C6: every ingestion attempt first writes status `processing`, writes it
exactly once, and terminates with `completed` on success or `failed` on any
fatal failure, the error being re-raised to the caller after the `failed`
write; no transition skips `processing`. -/
theorem C6_status_discipline (env : IngestEnv) (uid doc gcp fn : String)
    (st : IndexState) :
    (process_document_embeddings env uid doc gcp fn st).2.1.head? =
      some DocStatus.processing ∧
    (process_document_embeddings env uid doc gcp fn st).2.1.count
      DocStatus.processing = 1 ∧
    ((∃ e, (process_document_embeddings env uid doc gcp fn st).1 = .error e ∧
        (process_document_embeddings env uid doc gcp fn st).2.1 =
          [DocStatus.processing, DocStatus.failed]) ∨
      ((process_document_embeddings env uid doc gcp fn st).1 = .ok () ∧
        (process_document_embeddings env uid doc gcp fn st).2.1 =
          [DocStatus.processing, DocStatus.completed])) := by
  unfold process_document_embeddings
  cases ingestSteps env uid doc gcp fn st with
  | ok st' => exact ⟨rfl, rfl, Or.inr ⟨rfl, rfl⟩⟩
  | error e => exact ⟨rfl, rfl, Or.inl ⟨e, rfl, rfl⟩⟩

/-- C7: if the top-K similarity search returns zero matches, the pipeline
returns the fixed "no relevant information" response with an empty source
list — a defined outcome, not an error. -/
theorem C7_zero_matches (env : RetrievalEnv) (query user_id : String)
    (emb : List ℚ)
    (hidx : env.indexReady = true)
    (hemb : env.embed query = .ok emb)
    (hq : env.queryIndex emb ("user_" ++ user_id) 5 = .ok []) :
    search_and_generate_response env query user_id = ⟨noMatchesMsg, []⟩ := by
  unfold search_and_generate_response search_similar_documents
  rw [hidx]
  simp [hemb, hq]

/-- C7 witness: a concrete environment whose index returns zero matches. -/
theorem C7_zero_matches_witness :
    search_and_generate_response
      ⟨true, fun _ => .ok [(1 : ℚ)], fun _ _ _ => .ok [], fun _ _ => .ok "resp"⟩
      "What is the refund policy?" "u1" = ⟨noMatchesMsg, []⟩ :=
  C7_zero_matches _ "What is the refund policy?" "u1" [(1 : ℚ)] rfl rfl rfl

/-- C9: when `pinecone_index` is `None` at process start, ingestion skips
embedding storage entirely and still marks the document `completed`, so a
document can reach `completed` with zero vectors stored for it. -/
theorem C9_completed_without_vectors (env : IngestEnv)
    (uid doc gcp fn content text : String) (st : IndexState)
    (hidx : env.indexReady = false)
    (hdl : env.download gcp = .ok content)
    (hex : env.extractText content fn = .ok text)
    (htext : ¬pyStrip text = "")
    (hchunks : env.chunker text ≠ []) :
    process_document_embeddings env uid doc gcp fn st =
      (.ok (), [DocStatus.processing, DocStatus.completed], st) := by
  unfold process_document_embeddings ingestSteps
  rw [hdl]
  rw [exceptBind_ok]
  rw [hex, exceptBind_ok]
  simp [htext, hchunks, hidx, List.isEmpty_iff]

/-- C9 witness: a concrete run with an uninitialized index ends `completed`
with the (empty) index untouched: zero vectors in the tenant namespace. -/
theorem C9_completed_without_vectors_witness :
    process_document_embeddings
      ⟨fun _ => .ok "bytes", fun _ _ => .ok "some text", fun t => [t],
        fun _ => .ok [(1 : ℚ)], false, true⟩
      "u1" "d1" "path" "f.pdf" [] =
      (.ok (), [DocStatus.processing, DocStatus.completed], ([] : IndexState)) ∧
    countNs [] ("user_" ++ "u1") = 0 :=
  ⟨C9_completed_without_vectors _ "u1" "d1" "path" "f.pdf" "bytes" "some text" []
    rfl rfl rfl (by decide) (by decide), by decide⟩

/-- C3: any exception raised during embedding, vector search, or generation
is absorbed by the failure boundary of `search_and_generate_response`,
which then returns the fixed degraded response with an empty source list;
the caller never observes a raw exception (the result is a plain value in
every case). -/
theorem C3_failure_boundary (env : RetrievalEnv) (query user_id : String) :
    ((∃ e, search_similar_documents env query user_id 5 = .error e) →
      search_and_generate_response env query user_id = ⟨errorMsg, []⟩) ∧
    (∀ results e, search_similar_documents env query user_id 5 = .ok results →
      results ≠ [] →
      generate_response_with_context env query results 4000 = .error e →
      search_and_generate_response env query user_id = ⟨errorMsg, []⟩) ∧
    (∀ e, env.indexReady = true → env.embed query = .error e →
      search_similar_documents env query user_id 5 = .error e) := by
  refine ⟨?_, ?_, ?_⟩
  · rintro ⟨e, he⟩
    unfold search_and_generate_response
    rw [he]
    rfl
  · intro results e hs hne hg
    unfold search_and_generate_response
    rw [hs]
    match results, hne with
    | r :: rs, _ =>
      simp [hg]
  · intro e hidx hemb
    unfold search_similar_documents
    rw [hidx, hemb]
    rfl

/-- C3 witness: a concrete environment whose embedding provider raises;
the pipeline returns the fixed degraded response and no sources. -/
theorem C3_failure_boundary_witness :
    search_and_generate_response
      ⟨true, fun _ => .error "boom", fun _ _ _ => .ok [], fun _ _ => .ok "resp"⟩
      "q" "u1" = ⟨errorMsg, []⟩ :=
  (C3_failure_boundary
    ⟨true, fun _ => .error "boom", fun _ _ _ => .ok [], fun _ _ => .ok "resp"⟩
    "q" "u1").1 ⟨"boom", rfl⟩

/-- C5: re-ingesting the same document with identical content is
idempotent: vector ids are the deterministic `f"{doc_id}_chunk_{i}"`, so a
rerun upserts over the old ids; starting from the state a successful run
produced, a second identical run returns exactly the same state — the
namespace holds the same number of vectors as after a single ingestion and
every vector for the document is the rerun's own (nothing stale coexists). -/
theorem C5_reingest_idempotent (embed : String → Except String (List ℚ))
    (chunks : List String) (uid doc fn : String) (st st1 : IndexState)
    (h : store_embeddings_in_pinecone embed chunks uid doc fn true true st = .ok st1) :
    store_embeddings_in_pinecone embed chunks uid doc fn true true st1 = .ok st1 ∧
    (∀ st2, store_embeddings_in_pinecone embed chunks uid doc fn true true st1 = .ok st2 →
      st2 = st1 ∧ countNs st2 ("user_" ++ uid) = countNs st1 ("user_" ++ uid)) := by
  unfold store_embeddings_in_pinecone at h ⊢
  by_cases hv : (buildVectorsFrom embed uid doc fn 0 chunks).isEmpty
  · rw [if_neg (by simp), if_pos hv] at h
    exact absurd h (by simp)
  · rw [if_neg (by simp), if_neg hv, if_pos rfl] at h
    have hst1 : st1 = upsertAll st ("user_" ++ uid)
        (buildVectorsFrom embed uid doc fn 0 chunks) := by
      have := h
      rw [upsertBatches_eq_upsertAll] at this
      exact (Except.ok.inj this).symm
    have hfix : upsertAll st1 ("user_" ++ uid)
        (buildVectorsFrom embed uid doc fn 0 chunks) = st1 := by
      apply upsertAll_of_all_lookup_eq
      intro kv hkv
      rw [hst1]
      exact lookupVec_upsertAll_mem st ("user_" ++ uid) _ kv.1 kv.2
        (buildVectorsFrom_ids_nodup embed uid doc fn chunks 0)
        (by simpa using hkv)
    constructor
    · rw [if_neg (by simp), if_neg hv, if_pos rfl, upsertBatches_eq_upsertAll, hfix]
    · intro st2 h2
      rw [if_neg (by simp), if_neg hv, if_pos rfl, upsertBatches_eq_upsertAll, hfix] at h2
      exact ⟨(Except.ok.inj h2).symm, by rw [(Except.ok.inj h2).symm]⟩

/-- C5 witness: a concrete two-chunk document ingested twice; the second
run reproduces the state of the first exactly. -/
theorem C5_reingest_idempotent_witness :
    store_embeddings_in_pinecone (fun _ => .ok [(1 : ℚ)]) ["ca", "cb"] "u1" "d1" "f.pdf"
      true true
      (upsertAll [] ("user_" ++ "u1")
        (buildVectorsFrom (fun _ => .ok [(1 : ℚ)]) "u1" "d1" "f.pdf" 0 ["ca", "cb"])) =
      .ok (upsertAll [] ("user_" ++ "u1")
        (buildVectorsFrom (fun _ => .ok [(1 : ℚ)]) "u1" "d1" "f.pdf" 0 ["ca", "cb"])) :=
  (C5_reingest_idempotent (fun _ => .ok [(1 : ℚ)]) ["ca", "cb"] "u1" "d1" "f.pdf" [] _
    (by rw [store_embeddings_in_pinecone, if_neg (by simp), if_neg (by decide),
      if_pos rfl, upsertBatches_eq_upsertAll])).1

/-- C4: a single chunk's embedding failure only skips that chunk — every
successfully embedded chunk is still stored under its id and a skipped
chunk's slot is left untouched — while if every chunk fails, storage fails
with "No vectors generated from chunks" and the whole ingestion ends with
document status `failed`, the error being re-raised. -/
theorem C4_partial_chunk_tolerance (embed : String → Except String (List ℚ))
    (chunks : List String) (uid doc fn : String) (st : IndexState) :
    ((∃ (j : Nat) (c : String) (emb : List ℚ), chunks[j]? = some c ∧ embed c = .ok emb) →
      ∃ st', store_embeddings_in_pinecone embed chunks uid doc fn true true st = .ok st' ∧
        (∀ (j : Nat) (c : String) (emb : List ℚ), chunks[j]? = some c → embed c = .ok emb →
          lookupVec st' ("user_" ++ uid) (vecId doc j) =
            some ⟨emb, uid, doc, fn, j, c.take 1000, c.length⟩) ∧
        (∀ (j : Nat) (c : String) (e : String), chunks[j]? = some c → embed c = .error e →
          lookupVec st' ("user_" ++ uid) (vecId doc j) =
            lookupVec st ("user_" ++ uid) (vecId doc j))) ∧
    ((∀ (j : Nat) (c : String), chunks[j]? = some c → ∃ e, embed c = .error e) →
      store_embeddings_in_pinecone embed chunks uid doc fn true true st =
        .error "No vectors generated from chunks") ∧
    (∀ (env : IngestEnv) (gcp content text : String),
      env.download gcp = .ok content → env.extractText content fn = .ok text →
      ¬pyStrip text = "" → env.chunker text = chunks → chunks ≠ [] →
      env.embed = embed → env.indexReady = true →
      (∀ (j : Nat) (c : String), chunks[j]? = some c → ∃ e, embed c = .error e) →
      process_document_embeddings env uid doc gcp fn st =
        (.error "No vectors generated from chunks",
          [DocStatus.processing, DocStatus.failed], st)) := by
  have hallfail_nil : (∀ (j : Nat) (c : String), chunks[j]? = some c →
      ∃ e, embed c = .error e) →
      buildVectorsFrom embed uid doc fn 0 chunks = [] := by
    intro hall
    exact (buildVectorsFrom_eq_nil_iff embed uid doc fn chunks 0).mpr hall
  refine ⟨?_, ?_, ?_⟩
  · rintro ⟨j, c, emb, hj, hemb⟩
    have hmem : (mkVector uid doc fn j c emb) ∈ buildVectorsFrom embed uid doc fn 0 chunks := by
      exact (mem_buildVectorsFrom embed uid doc fn chunks 0 _).mpr
        ⟨j, c, emb, hj, hemb, by rw [Nat.zero_add]⟩
    have hne : ¬(buildVectorsFrom embed uid doc fn 0 chunks).isEmpty := by
      intro hcon
      rw [List.isEmpty_iff] at hcon
      rw [hcon] at hmem
      exact absurd hmem (List.not_mem_nil _)
    refine ⟨upsertAll st ("user_" ++ uid) (buildVectorsFrom embed uid doc fn 0 chunks),
      by rw [store_embeddings_in_pinecone, if_neg (by simp), if_neg hne, if_pos rfl,
        upsertBatches_eq_upsertAll], ?_, ?_⟩
    · intro j' c' emb' hj' hemb'
      have hmem' : (mkVector uid doc fn j' c' emb') ∈
          buildVectorsFrom embed uid doc fn 0 chunks :=
        (mem_buildVectorsFrom embed uid doc fn chunks 0 _).mpr
          ⟨j', c', emb', hj', hemb', by rw [Nat.zero_add]⟩
      exact lookupVec_upsertAll_mem st ("user_" ++ uid) _ _ _
        (buildVectorsFrom_ids_nodup embed uid doc fn chunks 0) hmem'
    · intro j' c' e hj' hemb'
      apply lookupVec_upsertAll_not_mem
      intro kv hkv hcon
      have hid : kv.1 = vecId doc j' := congrArg Prod.snd hcon
      rcases (mem_buildVectorsFrom embed uid doc fn chunks 0 kv).mp hkv with
        ⟨j'', c'', emb'', hj'', hemb'', hkveq⟩
      have : kv.1 = vecId doc (0 + j'') := by rw [hkveq]; rfl
      rw [this] at hid
      have hjj : 0 + j'' = j' := vecId_injective doc hid
      rw [Nat.zero_add] at hjj
      subst hjj
      rw [hj'] at hj''
      have hcc : c' = c'' := by injection hj''
      subst hcc
      rw [hemb'] at hemb''
      exact absurd hemb'' (by simp)
  · intro hall
    rw [store_embeddings_in_pinecone, if_neg (by simp),
      if_pos (by rw [hallfail_nil hall]; rfl)]
  · intro env gcp content text hdl hex htext hch hchne hembed hidx hall
    unfold process_document_embeddings ingestSteps
    rw [hdl, exceptBind_ok, hex, exceptBind_ok, if_neg htext, hch]
    rw [if_neg (by simpa [List.isEmpty_iff] using hchne), if_pos hidx, hembed, hidx]
    rw [store_embeddings_in_pinecone, if_neg (by simp),
      if_pos (by rw [hallfail_nil hall]; rfl)]

/-- C4 witness: two chunks, one failing: storage succeeds, the good chunk
is stored at its index and the bad chunk's slot stays empty; and a
one-chunk document whose only embedding fails ends with status `failed`
and the "No vectors generated from chunks" error. -/
theorem C4_partial_chunk_tolerance_witness :
    (∃ st', store_embeddings_in_pinecone
        (fun s => if s = "bad" then .error "e" else .ok [(2 : ℚ)])
        ["good", "bad"] "u1" "d1" "f.pdf" true true [] = .ok st' ∧
      (∀ (j : Nat) (c : String) (emb : List ℚ), (["good", "bad"])[j]? = some c →
        (if c = "bad" then Except.error "e" else Except.ok [(2 : ℚ)]) = .ok emb →
        lookupVec st' ("user_" ++ "u1") (vecId "d1" j) =
          some ⟨emb, "u1", "d1", "f.pdf", j, c.take 1000, c.length⟩) ∧
      (∀ (j : Nat) (c : String) (e : String), (["good", "bad"])[j]? = some c →
        (if c = "bad" then Except.error "e" else Except.ok [(2 : ℚ)]) = .error e →
        lookupVec st' ("user_" ++ "u1") (vecId "d1" j) =
          lookupVec [] ("user_" ++ "u1") (vecId "d1" j))) ∧
    process_document_embeddings
      ⟨fun _ => .ok "bytes", fun _ _ => .ok "text", fun _ => ["onlychunk"],
        fun _ => .error "embedding down", true, true⟩
      "u1" "d1" "path" "f.pdf" [] =
      (.error "No vectors generated from chunks",
        [DocStatus.processing, DocStatus.failed], []) := by
  constructor
  · exact (C4_partial_chunk_tolerance
      (fun s => if s = "bad" then .error "e" else .ok [(2 : ℚ)])
      ["good", "bad"] "u1" "d1" "f.pdf" []).1
      ⟨0, "good", [(2 : ℚ)], rfl, rfl⟩
  · exact (C4_partial_chunk_tolerance (fun _ => .error "embedding down")
      ["onlychunk"] "u1" "d1" "f.pdf" []).2.2
      _ "path" "bytes" "text" rfl rfl (by decide) rfl (by decide) rfl rfl
      (fun j c hj => ⟨"embedding down", rfl⟩)

/-- C10 counterexample: the claim asserts the stored index set "is not
contiguous" in every partial-failure run, but when exactly the trailing
chunk's embedding fails (three chunks, chunk 2 skipped) the stored
sequence indices are `[0, 1] = List.range 2` — a contiguous range. -/
theorem C10_counterexample :
    (∃ st', store_embeddings_in_pinecone
        (fun s => if s = "z" then .error "embedfail" else .ok [(1 : ℚ)])
        ["a", "b", "z"] "u1" "d1" "f.pdf" true true [] = .ok st' ∧
      storedChunkIds st' ("user_" ++ "u1") "d1" = [0, 1] ∧
      [0, 1] = List.range 2) ∧
    (fun s => if s = "z" then (Except.error "embedfail" : Except String (List ℚ))
      else .ok [(1 : ℚ)]) "z" = .error "embedfail" ∧
    (fun s => if s = "z" then (Except.error "embedfail" : Except String (List ℚ))
      else .ok [(1 : ℚ)]) "a" = .ok [(1 : ℚ)] := by
  refine ⟨⟨upsertAll [] ("user_" ++ "u1")
    (buildVectorsFrom (fun s => if s = "z" then .error "embedfail" else .ok [(1 : ℚ)])
      "u1" "d1" "f.pdf" 0 ["a", "b", "z"]), ?_, by decide, by decide⟩, rfl, rfl⟩
  rw [store_embeddings_in_pinecone, if_neg (by simp), if_neg (by decide),
    if_pos rfl, upsertBatches_eq_upsertAll]

/-- C10 (amended): in a run over a fresh namespace state, each stored
vector keeps the original enumeration index of its chunk (key
`f"{doc_id}_chunk_{i}"`, metadata `chunk_id = i`), and the set of stored
sequence indices is exactly the set of indices whose chunk embedded
successfully — gaps sit exactly at the skipped chunks' positions. The set
is therefore non-contiguous exactly when a skipped chunk precedes a stored
one; when only a suffix of chunks is skipped it is still contiguous. -/
theorem C10_amended_stored_indices (embed : String → Except String (List ℚ))
    (chunks : List String) (uid doc fn : String) (st' : IndexState)
    (h : store_embeddings_in_pinecone embed chunks uid doc fn true true [] = .ok st') :
    (∀ e ∈ st', e.1 = ("user_" ++ uid, vecId doc e.2.chunk_id) ∧ e.2.doc_id = doc) ∧
    (∀ i : Nat, i ∈ storedChunkIds st' ("user_" ++ uid) doc ↔
      ∃ c, chunks[i]? = some c ∧ ∃ emb, embed c = .ok emb) := by
  by_cases hv : (buildVectorsFrom embed uid doc fn 0 chunks).isEmpty
  · rw [store_embeddings_in_pinecone, if_neg (by simp), if_pos hv] at h
    exact absurd h (by simp)
  · rw [store_embeddings_in_pinecone, if_neg (by simp), if_neg hv, if_pos rfl,
      upsertBatches_eq_upsertAll] at h
    have hst' : st' = (buildVectorsFrom embed uid doc fn 0 chunks).map
        (fun kv => ((("user_" ++ uid), kv.1), kv.2)) := by
      have := upsertAll_of_all_lookup_none [] ("user_" ++ uid)
        (buildVectorsFrom embed uid doc fn 0 chunks)
        (buildVectorsFrom_ids_nodup embed uid doc fn chunks 0)
        (fun kv _ => rfl)
      rw [this] at h
      simpa using (Except.ok.inj h).symm
    subst hst'
    constructor
    · intro e he
      rcases List.mem_map.mp he with ⟨kv, hkv, hkve⟩
      rcases (mem_buildVectorsFrom embed uid doc fn chunks 0 kv).mp hkv with
        ⟨j, c, emb, _, _, hkveq⟩
      subst hkve
      rw [hkveq]
      exact ⟨rfl, rfl⟩
    · intro i
      constructor
      · intro hi
        rcases List.mem_map.mp hi with ⟨e, hef, hei⟩
        have hest := (List.mem_filter.mp hef).1
        rcases List.mem_map.mp hest with ⟨kv, hkv, hkve⟩
        rcases (mem_buildVectorsFrom embed uid doc fn chunks 0 kv).mp hkv with
          ⟨j, c, emb, hj, hemb, hkveq⟩
        have he2 : e.2 = kv.2 := by rw [← hkve]
        have hcid : kv.2.chunk_id = j := by rw [hkveq]; exact Nat.zero_add j
        have hij : i = j := by rw [← hei, he2, hcid]
        subst hij
        exact ⟨c, hj, emb, hemb⟩
      · rintro ⟨c, hc, emb, hemb⟩
        have hkv : mkVector uid doc fn i c emb ∈
            buildVectorsFrom embed uid doc fn 0 chunks :=
          (mem_buildVectorsFrom embed uid doc fn chunks 0 _).mpr
            ⟨i, c, emb, hc, hemb, by rw [Nat.zero_add]⟩
        apply List.mem_map.mpr
        refine ⟨(("user_" ++ uid, (mkVector uid doc fn i c emb).1),
          (mkVector uid doc fn i c emb).2), ?_, rfl⟩
        apply List.mem_filter.mpr
        exact ⟨List.mem_map_of_mem _ hkv, by simp [mkVector]⟩

/-- C10 amended-claim witness: a concrete run with a failing middle chunk,
instantiating the amended theorem. -/
theorem C10_amended_stored_indices_witness :
    (∀ e ∈ upsertAll [] ("user_" ++ "u2")
        (buildVectorsFrom (fun s => if s = "cb" then .error "x" else .ok [(3 : ℚ)])
          "u2" "d2" "g.pdf" 0 ["ca", "cb", "cc"]),
      e.1 = ("user_" ++ "u2", vecId "d2" e.2.chunk_id) ∧ e.2.doc_id = "d2") ∧
    (∀ i : Nat, i ∈ storedChunkIds
        (upsertAll [] ("user_" ++ "u2")
          (buildVectorsFrom (fun s => if s = "cb" then .error "x" else .ok [(3 : ℚ)])
            "u2" "d2" "g.pdf" 0 ["ca", "cb", "cc"]))
        ("user_" ++ "u2") "d2" ↔
      ∃ c, (["ca", "cb", "cc"])[i]? = some c ∧
        ∃ emb, (if c = "cb" then (Except.error "x" : Except String (List ℚ))
          else .ok [(3 : ℚ)]) = .ok emb) :=
  C10_amended_stored_indices
    (fun s => if s = "cb" then .error "x" else .ok [(3 : ℚ)])
    ["ca", "cb", "cc"] "u2" "d2" "g.pdf" _
    (by rw [store_embeddings_in_pinecone, if_neg (by simp), if_neg (by decide),
      if_pos rfl, upsertBatches_eq_upsertAll])

/-- C8 counterexample: the retrieval pipeline does not re-assert query
non-emptiness. With an embedding provider that errors on the empty query,
`search_similar_documents` surfaces exactly that error — so the embedding
call is made for the empty query; and with an all-succeeding environment
the empty query is answered normally, not rejected. -/
theorem C8_counterexample :
    search_similar_documents
      ⟨true, fun s => if s = "" then .error "embedding requested for empty query"
        else .ok [(1 : ℚ)], fun _ _ _ => .ok [], fun _ _ => .ok "resp"⟩
      "" "u1" 5 = .error "embedding requested for empty query" ∧
    (search_and_generate_response
      ⟨true, fun _ => .ok [(1 : ℚ)],
        fun _ _ _ => .ok [⟨"v1", 1/2, "txt", "doc.pdf", "d1", 0⟩],
        fun _ _ => .ok "resp"⟩
      "" "u1").response = "resp" :=
  ⟨rfl, rfl⟩

/-- C8 (amended): query-emptiness validation lives only in the HTTP
caller: `/chat` strips the query and rejects an empty result with a 400
before the pipeline runs, while the retrieval pipeline itself performs no
emptiness check — it forwards whatever query it receives, the empty string
included, straight to the embedding provider, whose outcome it follows. -/
theorem C8_amended_validation_layering :
    (∀ (env : RetrievalEnv) (uid raw : String), pyStrip raw = "" →
      chat env raw uid = .rejected 400 "Query cannot be empty") ∧
    (∀ (env : RetrievalEnv) (q uid e : String), env.indexReady = true →
      env.embed q = .error e →
      search_similar_documents env q uid 5 = .error e) ∧
    (∀ (env : RetrievalEnv) (q uid : String) (emb : List ℚ)
      (r : Except String (List SearchResult)), env.indexReady = true →
      env.embed q = .ok emb → env.queryIndex emb ("user_" ++ uid) 5 = r →
      search_similar_documents env q uid 5 = r) := by
  refine ⟨?_, ?_, ?_⟩
  · intro env uid raw hraw
    unfold chat
    rw [hraw]
    rfl
  · intro env q uid e hidx hemb
    unfold search_similar_documents
    rw [hidx, hemb]
    rfl
  · intro env q uid emb r hidx hemb hq
    unfold search_similar_documents
    rw [hidx, hemb, exceptBind_ok, hq]
    rfl

/-- C8 amended-claim witness: the HTTP layer rejects the empty query while
the pipeline forwards it to the embedding provider. -/
theorem C8_amended_validation_layering_witness :
    chat ⟨true, fun _ => .error "down", fun _ _ _ => .ok [], fun _ _ => .ok "r"⟩
      "" "u1" = .rejected 400 "Query cannot be empty" ∧
    search_similar_documents
      ⟨true, fun _ => .error "down", fun _ _ _ => .ok [], fun _ _ => .ok "r"⟩
      "" "u1" 5 = .error "down" :=
  ⟨C8_amended_validation_layering.1 _ "u1" "" rfl,
    C8_amended_validation_layering.2.1 _ "" "u1" "down" rfl rfl⟩

/-- A 1990-character text excerpt, sized so that the formatted chunk
`"[From d]: " ++ text` is exactly 2000 characters long. -/
def bigText : String := String.mk (List.replicate 1990 'a')

/-- First oversized context chunk for the C1 counterexample. -/
def exChunk1 : SearchResult := ⟨"v1", 9/10, bigText, "d", "doc1", 0⟩

/-- Second oversized context chunk for the C1 counterexample. -/
def exChunk2 : SearchResult := ⟨"v2", 8/10, bigText, "d", "doc2", 1⟩

/-- C1 counterexample: the assembled context string can exceed the 4000
character budget. Two chunks whose formatted texts are 2000 characters
each pass the loop's check (`current_length` reaches exactly 4000), but
the `"\n\n"` separator of `join` is not counted, so the assembled string
is 4002 characters long. -/
theorem formatChunk_exChunk_length :
    (formatChunk exChunk1).length = 2000 ∧ (formatChunk exChunk2).length = 2000 := by
  have hbig : bigText.length = 1990 := List.length_replicate 1990 'a'
  constructor
  · show ("[From " ++ "d" ++ "]: " ++ bigText).length = 2000
    rw [String.length_append, String.length_append, String.length_append, hbig]
    decide
  · show ("[From " ++ "d" ++ "]: " ++ bigText).length = 2000
    rw [String.length_append, String.length_append, String.length_append, hbig]
    decide

theorem C1_counterexample :
    (assembleContext [exChunk1, exChunk2] 4000).length = 4002 ∧
    4000 < (assembleContext [exChunk1, exChunk2] 4000).length := by
  obtain ⟨h1, h2⟩ := formatChunk_exChunk_length
  have hparts : buildContextParts 0 4000 [exChunk1, exChunk2] =
      [formatChunk exChunk1, formatChunk exChunk2] := by
    rw [buildContextParts, if_neg (by rw [h1]; decide),
      buildContextParts, if_neg (by rw [h1, h2]; decide), buildContextParts]
  have hlen : (assembleContext [exChunk1, exChunk2] 4000).length = 4002 := by
    rw [assembleContext, hparts, intercalate_length_cons]
    simp [sumLens, h1, h2]
    decide
  exact ⟨hlen, by rw [hlen]; decide⟩

/-- C1 (amended): the cumulative character count tracked by the assembly
loop — the sum of the formatted chunks' lengths, which excludes the
two-character `"\n\n"` separators — never exceeds the 4000 budget, so the
assembled string itself is the sum plus 2 per separator (this is how it
can exceed 4000, per the counterexample). Chunks are included in the given
order, each prefixed with its source document name; assembly stops before
the first chunk whose formatted text would push the cumulative count over
the budget; and if the very first formatted chunk alone exceeds the
budget, the assembled context is empty. -/
theorem C1_amended_context_budget (chunks : List SearchResult) :
    sumLens (buildContextParts 0 4000 chunks) ≤ 4000 ∧
    (∃ k, buildContextParts 0 4000 chunks = (chunks.take k).map formatChunk ∧
      (k = chunks.length ∨ ∃ c cs', chunks.drop k = c :: cs' ∧
        sumLens (buildContextParts 0 4000 chunks) + (formatChunk c).length > 4000)) ∧
    (∀ p ps, buildContextParts 0 4000 chunks = p :: ps →
      (assembleContext chunks 4000).length = sumLens (p :: ps) + 2 * ps.length) ∧
    (buildContextParts 0 4000 chunks = [] → assembleContext chunks 4000 = "") ∧
    (∀ c cs', chunks = c :: cs' → 4000 < (formatChunk c).length →
      assembleContext chunks 4000 = "") := by
  refine ⟨?_, ?_, ?_, ?_, ?_⟩
  · have := buildContextParts_sum_le chunks 0 4000 (by omega)
    omega
  · rcases buildContextParts_take chunks 0 4000 with ⟨k, hk, hr⟩
    refine ⟨k, hk, ?_⟩
    rcases hr with hr | ⟨c, cs', hd, hgt⟩
    · exact Or.inl hr
    · exact Or.inr ⟨c, cs', hd, by omega⟩
  · intro p ps hp
    rw [assembleContext, hp, intercalate_length_cons,
      show ("\n\n" : String).length = 2 from by decide, Nat.mul_comm]
  · intro h
    rw [assembleContext, h]
    rfl
  · intro c cs' hc hlen
    rw [assembleContext, hc, buildContextParts, if_pos (by omega)]
    rfl

/-- C1 amended-claim witness: a single small chunk fits; the assembled
context is the one formatted chunk, within budget. -/
theorem C1_amended_context_budget_witness :
    sumLens (buildContextParts 0 4000
      [(⟨"v", 1/2, "hi", "doc.pdf", "d1", 0⟩ : SearchResult)]) ≤ 4000 ∧
    buildContextParts 0 4000
      [(⟨"v", 1/2, "hi", "doc.pdf", "d1", 0⟩ : SearchResult)] =
      ["[From doc.pdf]: hi"] ∧
    assembleContext [(⟨"v", 1/2, "hi", "doc.pdf", "d1", 0⟩ : SearchResult)] 4000 =
      "[From doc.pdf]: hi" :=
  ⟨(C1_amended_context_budget
      [(⟨"v", 1/2, "hi", "doc.pdf", "d1", 0⟩ : SearchResult)]).1,
    by decide, by decide⟩

/-- C2: `extract_source_citations` returns at most one entry per distinct
`doc_name` (and at least one for every name that occurs); each retained
entry's score is the highest raw relevance score observed for that
`doc_name`, rounded to 3 decimal places; the list is sorted by score
descending; and entries with equal scores keep the first-seen order of
their names (the output filtered to any fixed score equals the first-seen
ordered deduplicated list filtered to that score). -/
theorem C2_citations_dedup_max_sorted (search_results : List SearchResult) :
    ((extract_source_citations search_results).map (·.doc_name)).Nodup ∧
    (∀ s ∈ extract_source_citations search_results,
      ∃ m, m ∈ scoresFor search_results s.doc_name ∧
        (∀ x ∈ scoresFor search_results s.doc_name, x ≤ m) ∧
        s.relevance_score = round3 m) ∧
    (∀ r ∈ search_results, ∃ s ∈ extract_source_citations search_results,
      s.doc_name = r.doc_name) ∧
    List.Sorted citeGE (extract_source_citations search_results) ∧
    (∀ q : ℚ, (extract_source_citations search_results).filter
        (fun s => decide (s.relevance_score = q)) =
      (dedupSources search_results).filter
        (fun s => decide (s.relevance_score = q))) := by
  obtain ⟨hnd, hmax, hcov⟩ := dedupSources_inv search_results
  have hperm : List.Perm (extract_source_citations search_results)
      (dedupSources search_results) :=
    List.perm_insertionSort citeGE (dedupSources search_results)
  refine ⟨?_, ?_, ?_, ?_, ?_⟩
  · exact ((hperm.map (·.doc_name)).nodup_iff).mpr hnd
  · intro s hs
    exact hmax s (hperm.mem_iff.mp hs)
  · intro r hr
    rcases hcov r hr with ⟨s, hs, hname⟩
    exact ⟨s, hperm.mem_iff.mpr hs, hname⟩
  · exact List.sorted_insertionSort citeGE (dedupSources search_results)
  · exact fun q => filter_insertionSort_score q (dedupSources search_results)

/-- C2 witness: the spec's worked scenario — two matches for one document
and one for another — instantiating the theorem at a concrete match
list. -/
theorem C2_citations_dedup_max_sorted_witness :
    ((extract_source_citations
      [⟨"m1", 81/100, "t1", "policy.pdf", "p", 0⟩,
        ⟨"m2", 9/10, "t2", "faq.pdf", "f", 0⟩,
        ⟨"m3", 74/100, "t3", "policy.pdf", "p", 1⟩]).map (·.doc_name)).Nodup ∧
    (∀ s ∈ extract_source_citations
      [⟨"m1", 81/100, "t1", "policy.pdf", "p", 0⟩,
        ⟨"m2", 9/10, "t2", "faq.pdf", "f", 0⟩,
        ⟨"m3", 74/100, "t3", "policy.pdf", "p", 1⟩],
      ∃ m, m ∈ scoresFor
          [⟨"m1", 81/100, "t1", "policy.pdf", "p", 0⟩,
            ⟨"m2", 9/10, "t2", "faq.pdf", "f", 0⟩,
            ⟨"m3", 74/100, "t3", "policy.pdf", "p", 1⟩] s.doc_name ∧
        (∀ x ∈ scoresFor
            [⟨"m1", 81/100, "t1", "policy.pdf", "p", 0⟩,
              ⟨"m2", 9/10, "t2", "faq.pdf", "f", 0⟩,
              ⟨"m3", 74/100, "t3", "policy.pdf", "p", 1⟩] s.doc_name, x ≤ m) ∧
        s.relevance_score = round3 m) ∧
    List.Sorted citeGE (extract_source_citations
      [⟨"m1", 81/100, "t1", "policy.pdf", "p", 0⟩,
        ⟨"m2", 9/10, "t2", "faq.pdf", "f", 0⟩,
        ⟨"m3", 74/100, "t3", "policy.pdf", "p", 1⟩]) :=
  ⟨(C2_citations_dedup_max_sorted _).1, (C2_citations_dedup_max_sorted _).2.1,
    (C2_citations_dedup_max_sorted _).2.2.2.1⟩

